import Mathlib

/-!
# Verification of the `fily` find engine

Shallow embedding of the file-query core of the `fily` repository:

* `Condition` and its evaluation — `src/fily_lib/src/operations/find/condition.rs`
* leaf criteria matchers (`filename_matches`, `filesize_matches`, …) — same file
* `FindOptions`, the builder's chain constructors (`add_all_of_condition`,
  `add_nothing_of_condition`) and the `find` engine —
  `src/fily_lib/src/operations/find/mod.rs`

The directory walk, path canonicalization and the regex engine are external
collaborators of the crate (the `walkdir`, `std::fs` and `regex`
dependencies); they enter the embedding as parameters (entry streams,
an `Option`-valued canonicalization function, an abstract string predicate).

The repository also declares a newer generation of the module
(`src/fily_lib/src/find/`, called from `src/main.rs` as
`let results = find(..); for (path, err) in results.1 { .. }`) whose core
files — the tuple-returning `find` and the typed `EvalError` — are not part
of the source snapshot; those are modelled from the specification where a
claim depends on them, and are clearly marked below.
-/

namespace Fily

/-- An OS string: either valid UTF-8 text (convertible via `to_str`) or an
unconvertible byte sequence.  `invalid k` stands for a non-UTF-8 OS string,
with `k` distinguishing different such strings. -/
inductive OsStr where
  | utf8 (s : String)
  | invalid (k : Nat)
deriving DecidableEq, Repr

/-- Source `OsStr::to_str`: `some` exactly on UTF-8 convertible strings. -/
def OsStr.toStr? : OsStr → Option String
  | .utf8 s => some s
  | .invalid _ => none

/-- Paths are OS strings (`PathBuf` in the source). -/
abbrev FPath := OsStr

/-- Char-list prefix test (helper for `strContains`). -/
def listPrefixOf : List Char → List Char → Bool
  | [], _ => true
  | _ :: _, [] => false
  | a :: as, b :: bs => a = b && listPrefixOf as bs

/-- Char-list infix test (helper for `strContains`). -/
def listInfixOf (needle : List Char) : List Char → Bool
  | [] => needle.isEmpty
  | b :: rest => listPrefixOf needle (b :: rest) || listInfixOf needle rest

/-- Rust `str::contains(substring)`: substring occurrence test. -/
def strContains (hay needle : String) : Bool :=
  listInfixOf needle.data hay.data

/-- Rust `str::starts_with(char)` specialised to the hidden-file marker. -/
def startsWithDot (s : String) : Bool :=
  match s.data with
  | [] => false
  | c :: _ => c = '.'

/-- The file type reported by the walk provider (`walkdir::DirEntry::file_type`). -/
inductive FType where
  | file
  | dir
  | symlink
deriving DecidableEq, Repr

/-- Filesystem metadata as used by the leaf matchers: byte length (`len`),
`mtime`/`atime` in unix seconds, and the creation time, which is `none` on
platforms without birth-time support (`FileTime::from_creation_time`
returning `None`). -/
structure Metry where
  len : Nat
  modified : Int
  accessed : Int
  created : Option Int
deriving DecidableEq, Repr

/-- A directory entry as delivered by the walk provider.  The fields are the
accessors the engine uses: the full path, `Path::file_name()` of that path
(`none` when the path has no final component), `DirEntry::file_name()`
(always present), the entry's file type, its depth below the root, and the
result of `DirEntry::metadata()` (`none` models an I/O error). -/
structure Entry where
  path : FPath
  pathFileName : Option OsStr
  entryFileName : OsStr
  ftype : FType
  depth : Nat
  metadata : Option Metry
deriving DecidableEq, Repr

/-- The `Filename` search criterion (exact name or substring). -/
inductive Filename where
  | Exact (s : String)
  | Contains (s : String)
deriving DecidableEq, Repr

/-- The `Filesize` search criterion, in bytes; `Over`/`Under` are strict. -/
inductive Filesize where
  | Exact (n : Nat)
  | Over (n : Nat)
  | Under (n : Nat)
deriving DecidableEq, Repr

/-- The `FilePath` search criterion, matched against the path's string form. -/
inductive FilePathCrit where
  | Exact (s : String)
  | Contains (s : String)
deriving DecidableEq, Repr

/-- The `Modified` criterion, unix-epoch seconds; `Before`/`After` are strict. -/
inductive Modified where
  | At (t : Int)
  | Before (t : Int)
  | After (t : Int)
deriving DecidableEq, Repr

/-- The `Accessed` criterion, unix-epoch seconds. -/
inductive Accessed where
  | At (t : Int)
  | Before (t : Int)
  | After (t : Int)
deriving DecidableEq, Repr

/-- The `Created` criterion, unix-epoch seconds. -/
inductive Created where
  | At (t : Int)
  | Before (t : Int)
  | After (t : Int)
deriving DecidableEq, Repr

/-- The `Ignore` switch: skip all files or all folders. -/
inductive Ignore where
  | Files
  | Folders
deriving DecidableEq, Repr

/-- A leaf search criterion.  The compiled regex of `FilenameRegex` is taken
abstractly as its matching predicate on strings (the regex engine is the
external `regex` crate). -/
inductive SearchCriteria where
  | Filename (f : Filename)
  | Filesize (f : Filesize)
  | FilePath (f : FilePathCrit)
  | FilenameRegex (matcher : String → Bool)
  | Modified (m : Modified)
  | Accessed (a : Accessed)
  | Created (c : Created)

/-- Typed per-entry evaluation error.  Modelled from the spec: the
`EvalError` of the missing `src/fily_lib/src/find/` core (`NoFilename`,
`EncodingError`, `IOError`, `UnsupportedField`); the sites at which each
variant is raised follow the `Err(())` sites of the present
`src/fily_lib/src/operations/find/condition.rs` together with §4.1 of the
spec, which names the variant for each site. -/
inductive EvalError where
  | NoFilename
  | EncodingError
  | IOError
  | UnsupportedField
deriving DecidableEq, Repr

/-- Source `Condition::filename_matches`: needs a final path component
(`NoFilename` otherwise) convertible to text (`EncodingError` otherwise). -/
def filename_matches (e : Entry) (fo : Filename) : Except EvalError Bool :=
  match e.pathFileName with
  | none => .error .NoFilename
  | some os =>
    match os.toStr? with
    | none => .error .EncodingError
    | some filename =>
      .ok (match fo with
        | .Exact exact_name => filename = exact_name
        | .Contains substring => strContains filename substring)

/-- Source `Condition::filesize_matches`: metadata retrieval may fail (`IOError`);
size comparisons are strict for `Over`/`Under`. -/
def filesize_matches (e : Entry) (fo : Filesize) : Except EvalError Bool :=
  match e.metadata with
  | none => .error .IOError
  | some md =>
    .ok (match fo with
      | .Exact exact_size => md.len = exact_size
      | .Over over_this_size => over_this_size < md.len
      | .Under under_this_size => md.len < under_this_size)

/-- Source `Condition::filepath_matches`: the full path must be representable as
text (`EncodingError` otherwise). -/
def filepath_matches (e : Entry) (fo : FilePathCrit) : Except EvalError Bool :=
  match e.path.toStr? with
  | none => .error .EncodingError
  | some path =>
    .ok (match fo with
      | .Exact exact_path => path = exact_path
      | .Contains substring => strContains path substring)

/-- Source `Condition::filename_regex_matches`: same name requirements as
`filename_matches`, then the regex predicate on the base filename. -/
def filename_regex_matches (e : Entry) (matcher : String → Bool) :
    Except EvalError Bool :=
  match e.pathFileName with
  | none => .error .NoFilename
  | some os =>
    match os.toStr? with
    | none => .error .EncodingError
    | some filename => .ok (matcher filename)

/-- Source `Condition::modification_time_matches`: metadata may fail (`IOError`);
time comparisons are strict for `Before`/`After`. -/
def modification_time_matches (e : Entry) (mo : Modified) :
    Except EvalError Bool :=
  match e.metadata with
  | none => .error .IOError
  | some md =>
    .ok (match mo with
      | .At t => md.modified = t
      | .Before t => md.modified < t
      | .After t => t < md.modified)

/-- Source `Condition::access_time_matches`. -/
def access_time_matches (e : Entry) (ao : Accessed) : Except EvalError Bool :=
  match e.metadata with
  | none => .error .IOError
  | some md =>
    .ok (match ao with
      | .At t => md.accessed = t
      | .Before t => md.accessed < t
      | .After t => t < md.accessed)

/-- Source `Condition::creation_time_matches`: metadata failure is `IOError`;
a platform without birth-time support (`FileTime::from_creation_time`
returning `None`) is the distinct `UnsupportedField`. -/
def creation_time_matches (e : Entry) (co : Created) : Except EvalError Bool :=
  match e.metadata with
  | none => .error .IOError
  | some md =>
    match md.created with
    | none => .error .UnsupportedField
    | some creation_time =>
      .ok (match co with
        | .At t => creation_time = t
        | .Before t => creation_time < t
        | .After t => t < creation_time)

/-- Leaf dispatch: the `Condition::Value` branch of `evaluate`. -/
def SearchCriteria.eval (sc : SearchCriteria) (e : Entry) :
    Except EvalError Bool :=
  match sc with
  | .Filename fo => filename_matches e fo
  | .Filesize fo => filesize_matches e fo
  | .FilePath fo => filepath_matches e fo
  | .FilenameRegex m => filename_regex_matches e m
  | .Modified mo => modification_time_matches e mo
  | .Accessed ao => access_time_matches e ao
  | .Created co => creation_time_matches e co

/-- The boolean expression tree `Condition<T>`. -/
inductive Condition (T : Type u) where
  | Not (c : Condition T)
  | And (c1 c2 : Condition T)
  | Or (c1 c2 : Condition T)
  | Value (v : T)

/-- Source `Condition::evaluate`, generic over the leaf evaluator `f`.  The source
is `Ok(c1.evaluate(e)? && c2.evaluate(e)?)` (resp. `||`, `!`): the `?`
operator propagates the first error, and `&&`/`||` short-circuit. -/
def Condition.evaluate (f : T → Except ε Bool) : Condition T → Except ε Bool
  | .And c1 c2 =>
    match c1.evaluate f with
    | .error e => .error e
    | .ok b1 => if b1 then c2.evaluate f else .ok false
  | .Not c =>
    match c.evaluate f with
    | .error e => .error e
    | .ok b => .ok (!b)
  | .Or c1 c2 =>
    match c1.evaluate f with
    | .error e => .error e
    | .ok b1 => if b1 then .ok true else c2.evaluate f
  | .Value v => f v

/-- Source `Condition::evaluate`, instrumented with the list of leaves actually
invoked, in invocation order.  Leaves are where all evaluation cost lives
(syscalls, regex matches); a subtree is "never evaluated" exactly when none
of its leaves appear in the trace.  `evalTrace_fst` ties this back to
`Condition.evaluate`. -/
def Condition.evalTrace (f : T → Except ε Bool) :
    Condition T → Except ε Bool × List T
  | .And c1 c2 =>
    match c1.evalTrace f with
    | (.error e, t1) => (.error e, t1)
    | (.ok b1, t1) =>
      if b1 then
        match c2.evalTrace f with
        | (r2, t2) => (r2, t1 ++ t2)
      else (.ok false, t1)
  | .Not c =>
    match c.evalTrace f with
    | (.error e, t) => (.error e, t)
    | (.ok b, t) => (.ok (!b), t)
  | .Or c1 c2 =>
    match c1.evalTrace f with
    | (.error e, t1) => (.error e, t1)
    | (.ok b1, t1) =>
      if b1 then (.ok true, t1)
      else
        match c2.evalTrace f with
        | (r2, t2) => (r2, t1 ++ t2)
  | .Value v => (f v, [v])

theorem evalTrace_fst (f : T → Except ε Bool) (c : Condition T) :
    (c.evalTrace f).1 = c.evaluate f := by
  induction c with
  | Not c ih =>
    simp only [Condition.evalTrace, Condition.evaluate, ← ih]
    rcases h : c.evalTrace f with ⟨r, t⟩
    rcases r with e | b <;> simp [h]
  | And c1 c2 ih1 ih2 =>
    simp only [Condition.evalTrace, Condition.evaluate, ← ih1, ← ih2]
    rcases h1 : c1.evalTrace f with ⟨r1, t1⟩
    rcases r1 with e | b1
    · simp [h1]
    · rcases h2 : c2.evalTrace f with ⟨r2, t2⟩
      rcases b1 <;> simp [h1, h2]
  | Or c1 c2 ih1 ih2 =>
    simp only [Condition.evalTrace, Condition.evaluate, ← ih1, ← ih2]
    rcases h1 : c1.evalTrace f with ⟨r1, t1⟩
    rcases r1 with e | b1
    · simp [h1]
    · rcases h2 : c2.evalTrace f with ⟨r2, t2⟩
      rcases b1 <;> simp [h1, h2]
  | Value v => rfl

/-- The value of `usize::MAX` on a 64-bit target. -/
def USIZE_MAX : Nat := 2 ^ 64 - 1

/-- Source `FindOptions` (the configuration bundle of `find`).  `usize` fields are
modelled as `Nat`; the engine's arithmetic on them never under/overflows
(shown where used). -/
structure FindOptions where
  options : List (Condition SearchCriteria)
  max_num_results : Nat
  max_search_depth : Nat
  min_depth_from_start : Nat
  ignore : Option Ignore
  ignore_hidden_files : Bool
  follow_symlinks : Bool

/-- Source `FindOptions::default()`: a configuration that matches anything. -/
def FindOptions.default : FindOptions where
  options := []
  max_num_results := USIZE_MAX
  max_search_depth := USIZE_MAX
  min_depth_from_start := 0
  ignore := none
  ignore_hidden_files := false
  follow_symlinks := false

/-- The `And`-chain built by `FindOptionsBuilder::add_all_of_condition`:
`option = Value(cs.remove(0))`, then for each remaining criterion
`option = And(Value(criteria), option)` — a left fold whose accumulator is
the right operand of each new `And` node. -/
def allOfChain (c0 : T) (rest : List T) : Condition T :=
  rest.foldl (fun acc c => .And (.Value c) acc) (.Value c0)

/-- The chain built by `FindOptionsBuilder::add_nothing_of_condition`:
`option = Not(Value(cs.remove(0)))`, then for each remaining criterion
`option = And(Not(Value(criteria)), option)`. -/
def noneOfChain (c0 : T) (rest : List T) : Condition T :=
  rest.foldl (fun acc c => .And (.Not (.Value c)) acc) (.Not (.Value c0))

/-- Source `FindOptionsBuilder::add_all_of_condition`, as its action on the
`options` list of the wrapped `FindOptions`: on an empty criteria list the
builder returns unchanged; otherwise it pushes the `allOfChain`. -/
def add_all_of_condition (cs : List SearchCriteria)
    (options : List (Condition SearchCriteria)) :
    List (Condition SearchCriteria) :=
  match cs with
  | [] => options
  | c0 :: rest => options ++ [allOfChain c0 rest]

/-- Source `FindOptionsBuilder::add_nothing_of_condition`, as its action on the
`options` list (the newer snapshot names this `add_none_of_condition`). -/
def add_nothing_of_condition (cs : List SearchCriteria)
    (options : List (Condition SearchCriteria)) :
    List (Condition SearchCriteria) :=
  match cs with
  | [] => options
  | c0 :: rest => options ++ [noneOfChain c0 rest]

/-- Source `Result::unwrap_or` on the evaluation result. -/
def unwrapOr (r : Except ε Bool) (d : Bool) : Bool :=
  match r with
  | .ok b => b
  | .error _ => d

/-- The `ignore` filter of `find` (mod.rs lines 293–303): skip a file when
ignoring files, a directory when ignoring folders. -/
def ignoreSkips (ig : Option Ignore) (e : Entry) : Bool :=
  match ig with
  | none => false
  | some .Files => e.ftype = FType.file
  | some .Folders => e.ftype = FType.dir

/-- The `ignore_hidden_files` filter of `find` (mod.rs lines 305–312): skip
iff the entry's `file_name()` converts to text and starts with `'.'`;
an unconvertible name is not skipped. -/
def hiddenSkips (e : Entry) : Bool :=
  match e.entryFileName.toStr? with
  | some name => startsWithDot name
  | none => false

/-- The per-entry body of the `filter_map` in `find` (mod.rs lines 285–321),
instrumented: the second component records whether the entry reached the
condition check (`options.iter().all(..)`), i.e. survived the `ignore` and
hidden-file filters.  A walk-level error (`Err` item) is skipped.  The first
component is `some path` exactly when the entry is a match. -/
def processEntryT (opts : FindOptions) (it : Except Nat Entry) :
    Option FPath × Bool :=
  match it with
  | .error _ => (none, false)
  | .ok entry =>
    if ignoreSkips opts.ignore entry then (none, false)
    else if opts.ignore_hidden_files && hiddenSkips entry then (none, false)
    else if opts.options.all
        (fun c => unwrapOr (c.evaluate (SearchCriteria.eval · entry)) false) then
      (some entry.path, true)
    else (none, true)

/-- The per-entry body of the `filter_map` in `find`: `some path` exactly on
a match. -/
def processEntry (opts : FindOptions) (it : Except Nat Entry) : Option FPath :=
  (processEntryT opts it).1

/-- One root's `matching_files` list: the order-preserving `filter_map` over
that root's walk stream (rayon's indexed parallel `filter_map`/`collect`
preserves the stream order). -/
def perRootMatches (opts : FindOptions) (stream : List (Except Nat Entry)) :
    List FPath :=
  stream.filterMap (processEntry opts)

/-- The paths of the entries of one root's stream that reached condition
evaluation. -/
def perRootEvaluated (opts : FindOptions) (stream : List (Except Nat Entry)) :
    List FPath :=
  stream.filterMap (fun it =>
    match it with
    | .error _ => none
    | .ok entry => if (processEntryT opts it).2 then some entry.path else none)

/-- The per-root accumulation loop of `find` (mod.rs lines 277–336): after
each root, if `results.len() + matching_files.len() >= max_num_results`,
truncate `matching_files` to `max_num_results - results.len()`, append, and
break; otherwise append everything and continue with the next root. -/
def findFrom (opts : FindOptions) :
    List (List (Except Nat Entry)) → List FPath → List FPath
  | [], results => results
  | stream :: rest, results =>
    let matching := perRootMatches opts stream
    if opts.max_num_results ≤ results.length + matching.length then
      results ++ matching.take (opts.max_num_results - results.length)
    else
      findFrom opts rest (results ++ matching)

/-- The loop `findFrom`, instrumented with the list of condition-evaluated entry paths
across the processed roots (roots after the early `break` contribute
nothing: they are never walked). -/
def findFromT (opts : FindOptions) :
    List (List (Except Nat Entry)) → List FPath → List FPath →
    List FPath × List FPath
  | [], results, evals => (results, evals)
  | stream :: rest, results, evals =>
    let matching := perRootMatches opts stream
    let evaled := perRootEvaluated opts stream
    if opts.max_num_results ≤ results.length + matching.length then
      (results ++ matching.take (opts.max_num_results - results.length),
       evals ++ evaled)
    else
      findFromT opts rest (results ++ matching) (evals ++ evaled)

/-- Source `find` (mod.rs lines 261–341).  The externals are parameters:
`canon` is `std::fs::canonicalize` (`none` models failure, in which case the
root is skipped with only a log line); `walk` is the `WalkDir` provider,
invoked with the canonical root, `min_depth(min_depth_from_start)`,
`max_depth(max_search_depth)` and `follow_links(follow_symlinks)`, yielding
the entry stream (items are `Err` for walk-level errors). -/
def find (canon : FPath → Option FPath)
    (walk : FPath → Nat → Nat → Bool → List (Except Nat Entry))
    (roots : List FPath) (opts : FindOptions) : List FPath :=
  findFrom opts
    ((roots.filterMap canon).map
      (fun p => walk p opts.min_depth_from_start opts.max_search_depth
        opts.follow_symlinks))
    []

/-- Source `find`, instrumented with the condition-evaluated entry paths. -/
def findT (canon : FPath → Option FPath)
    (walk : FPath → Nat → Nat → Bool → List (Except Nat Entry))
    (roots : List FPath) (opts : FindOptions) : List FPath × List FPath :=
  findFromT opts
    ((roots.filterMap canon).map
      (fun p => walk p opts.min_depth_from_start opts.max_search_depth
        opts.follow_symlinks))
    [] []

/-- Modelled from the spec: the top-level conjunction over
`FindOptions.options` of the missing `src/fily_lib/src/find/mod.rs`,
following §4.2/§4.4 — all configured conditions must hold, with the same
short-circuit rule across the list: stop at the first failing or erroring
condition. -/
def evalOptions (options : List (Condition SearchCriteria)) (e : Entry) :
    Except EvalError Bool :=
  match options with
  | [] => .ok true
  | c :: rest =>
    match c.evaluate (SearchCriteria.eval · e) with
    | .error er => .error er
    | .ok false => .ok false
    | .ok true => evalOptions rest e

/-- Modelled from the spec: the per-entry outcome in the missing
tuple-returning `find` (§4.4 steps 2–4).  `none`: walk-level error or
filtered out; `inl path`: a match; `inr (path, er)`: an evaluation error,
recorded with the entry's path and excluded from matches.  The filter
stages are those of the present `operations/find/mod.rs`. -/
def entryOutcomeE (opts : FindOptions) (it : Except Nat Entry) :
    Option (FPath ⊕ FPath × EvalError) :=
  match it with
  | .error _ => none
  | .ok entry =>
    if ignoreSkips opts.ignore entry then none
    else if opts.ignore_hidden_files && hiddenSkips entry then none
    else
      match evalOptions opts.options entry with
      | .ok true => some (.inl entry.path)
      | .ok false => none
      | .error er => some (.inr (entry.path, er))

/-- One root's matches under the spec-modelled engine. -/
def perRootEMatches (opts : FindOptions) (stream : List (Except Nat Entry)) :
    List FPath :=
  stream.filterMap (fun it =>
    match entryOutcomeE opts it with
    | some (.inl p) => some p
    | _ => none)

/-- One root's recorded evaluation errors, in traversal order. -/
def perRootEErrors (opts : FindOptions) (stream : List (Except Nat Entry)) :
    List (FPath × EvalError) :=
  stream.filterMap (fun it =>
    match entryOutcomeE opts it with
    | some (.inr pe) => some pe
    | _ => none)

/-- Modelled from the spec: the accumulation loop of the missing
tuple-returning `find` — matches are capped and truncated exactly as in the
present `operations/find/mod.rs`, evaluation errors of every processed root
are returned alongside (§4.4 step 5, §7). -/
def findFromE (opts : FindOptions) :
    List (List (Except Nat Entry)) → List FPath → List (FPath × EvalError) →
    List FPath × List (FPath × EvalError)
  | [], results, errors => (results, errors)
  | stream :: rest, results, errors =>
    let matching := perRootEMatches opts stream
    let errs := perRootEErrors opts stream
    if opts.max_num_results ≤ results.length + matching.length then
      (results ++ matching.take (opts.max_num_results - results.length),
       errors ++ errs)
    else
      findFromE opts rest (results ++ matching) (errors ++ errs)

/-- Modelled from the spec: `find(roots, options) ->
(matches, errors)` of the missing `src/fily_lib/src/find/mod.rs`, as
destructured by the present caller `src/src/main.rs`
(`for (path, err) in results.1`). -/
def findE (canon : FPath → Option FPath)
    (walk : FPath → Nat → Nat → Bool → List (Except Nat Entry))
    (roots : List FPath) (opts : FindOptions) :
    List FPath × List (FPath × EvalError) :=
  findFromE opts
    ((roots.filterMap canon).map
      (fun p => walk p opts.min_depth_from_start opts.max_search_depth
        opts.follow_symlinks))
    [] []

/-! ## Supporting lemmas -/

theorem And_eval_ok_true (f : T → Except ε Bool) (a b : Condition T) :
    (Condition.And a b).evaluate f = .ok true ↔
      a.evaluate f = .ok true ∧ b.evaluate f = .ok true := by
  simp only [Condition.evaluate]
  rcases h : a.evaluate f with e | b1
  · simp
  · rcases b1 <;> simp

theorem Not_eval_ok_true (f : T → Except ε Bool) (a : Condition T) :
    (Condition.Not a).evaluate f = .ok true ↔ a.evaluate f = .ok false := by
  simp only [Condition.evaluate]
  rcases h : a.evaluate f with e | b
  · simp
  · rcases b <;> simp

theorem allOfChain_eval (f : T → Except ε Bool) (c0 : T) (rest : List T) :
    (allOfChain c0 rest).evaluate f = .ok true ↔
      ∀ c ∈ c0 :: rest, f c = .ok true := by
  have key : ∀ (l : List T) (acc : Condition T),
      (l.foldl (fun a c => Condition.And (.Value c) a) acc).evaluate f
          = .ok true ↔
        acc.evaluate f = .ok true ∧ ∀ c ∈ l, f c = .ok true := by
    intro l
    induction l with
    | nil => intro acc; simp
    | cons c l ih =>
      intro acc
      rw [List.foldl_cons, ih]
      rw [And_eval_ok_true]
      constructor
      · rintro ⟨⟨hc, hacc⟩, hl⟩
        exact ⟨hacc, by
          intro x hx
          rcases List.mem_cons.mp hx with h | h
          · subst h; exact hc
          · exact hl x h⟩
      · rintro ⟨hacc, hl⟩
        exact ⟨⟨hl c (List.mem_cons_self c l), hacc⟩,
          fun x hx => hl x (List.mem_cons_of_mem c hx)⟩
  rw [allOfChain, key]
  simp [Condition.evaluate]

theorem noneOfChain_eval (f : T → Except ε Bool) (c0 : T) (rest : List T) :
    (noneOfChain c0 rest).evaluate f = .ok true ↔
      ∀ c ∈ c0 :: rest, f c = .ok false := by
  have key : ∀ (l : List T) (acc : Condition T),
      (l.foldl (fun a c => Condition.And (.Not (.Value c)) a) acc).evaluate f
          = .ok true ↔
        acc.evaluate f = .ok true ∧ ∀ c ∈ l, f c = .ok false := by
    intro l
    induction l with
    | nil => intro acc; simp
    | cons c l ih =>
      intro acc
      rw [List.foldl_cons, ih]
      rw [And_eval_ok_true, Not_eval_ok_true]
      constructor
      · rintro ⟨⟨hc, hacc⟩, hl⟩
        exact ⟨hacc, by
          intro x hx
          rcases List.mem_cons.mp hx with h | h
          · subst h; exact hc
          · exact hl x h⟩
      · rintro ⟨hacc, hl⟩
        exact ⟨⟨hl c (List.mem_cons_self c l), hacc⟩,
          fun x hx => hl x (List.mem_cons_of_mem c hx)⟩
  rw [noneOfChain, key, Not_eval_ok_true]
  simp [Condition.evaluate]

/-- The per-root loop of `find` computes a truncated flattening: the result
is the first `max_num_results` elements of the concatenation of the
per-root match lists, in root order. -/
theorem findFrom_eq_take (opts : FindOptions) :
    ∀ (streams : List (List (Except Nat Entry))) (results : List FPath),
      results.length ≤ opts.max_num_results →
      findFrom opts streams results =
        (results ++ (streams.map (perRootMatches opts)).flatten).take
          opts.max_num_results := by
  intro streams
  induction streams with
  | nil =>
    intro results h
    simp [findFrom, List.take_of_length_le h]
  | cons s rest ih =>
    intro results h
    simp only [findFrom, List.map_cons, List.flatten_cons]
    by_cases hc :
        opts.max_num_results ≤ results.length + (perRootMatches opts s).length
    · rw [if_pos hc, List.take_append_eq_append_take,
        List.take_of_length_le h,
        List.take_append_of_le_length (by omega)]
    · rw [if_neg hc, ih (results ++ perRootMatches opts s) (by simp; omega),
        List.append_assoc]

theorem findFromT_fst (opts : FindOptions) :
    ∀ (streams : List (List (Except Nat Entry))) (results evals : List FPath),
      (findFromT opts streams results evals).1 = findFrom opts streams results := by
  intro streams
  induction streams with
  | nil => intro results evals; rfl
  | cons s rest ih =>
    intro results evals
    simp only [findFromT, findFrom]
    by_cases hc :
        opts.max_num_results ≤ results.length + (perRootMatches opts s).length
    · rw [if_pos hc, if_pos hc]
    · rw [if_neg hc, if_neg hc, ih]

/-- When a root's matches bring the cumulative count to the cap, the loop
truncates, stops, and the remaining roots are never walked: the evaluated
set closes with the current root. -/
theorem findFromT_break (opts : FindOptions)
    (stream : List (Except Nat Entry)) (rest : List (List (Except Nat Entry)))
    (results evals : List FPath)
    (h : opts.max_num_results ≤
      results.length + (perRootMatches opts stream).length) :
    findFromT opts (stream :: rest) results evals =
      (results ++ (perRootMatches opts stream).take
          (opts.max_num_results - results.length),
       evals ++ perRootEvaluated opts stream) := by
  simp only [findFromT]
  rw [if_pos h]

theorem findFromE_single (opts : FindOptions)
    (stream : List (Except Nat Entry)) :
    findFromE opts [stream] [] [] =
      ((perRootEMatches opts stream).take opts.max_num_results,
       perRootEErrors opts stream) := by
  simp only [findFromE]
  by_cases hc :
      opts.max_num_results ≤
        List.length ([] : List FPath) + (perRootEMatches opts stream).length
  · rw [if_pos hc]; simp
  · rw [if_neg hc]
    simp only [findFromE, List.nil_append]
    rw [List.take_of_length_le (by simp at hc; omega)]

theorem entryOutcomeE_of_error (opts : FindOptions) (entry : Entry)
    (er : EvalError)
    (hig : ignoreSkips opts.ignore entry = false)
    (hhid : (opts.ignore_hidden_files && hiddenSkips entry) = false)
    (hev : evalOptions opts.options entry = .error er) :
    entryOutcomeE opts (.ok entry) = some (.inr (entry.path, er)) := by
  simp [entryOutcomeE, hig, hhid, hev]

theorem processEntry_some (opts : FindOptions) (it : Except Nat Entry)
    (q : FPath) (h : processEntry opts it = some q) :
    ∃ e : Entry, it = .ok e ∧ e.path = q := by
  rcases it with k | e
  · simp [processEntry, processEntryT] at h
  · refine ⟨e, rfl, ?_⟩
    simp only [processEntry, processEntryT] at h
    by_cases h1 : ignoreSkips opts.ignore e
    · simp [h1] at h
    · by_cases h2 : opts.ignore_hidden_files && hiddenSkips e
      · simp [h1, h2] at h
      · by_cases h3 : opts.options.all
            (fun c => unwrapOr (c.evaluate (SearchCriteria.eval · e)) false)
        · simp [h1, h2, h3] at h; exact h
        · simp [h1, h2, h3] at h

/-! ## Concrete fixtures for witnesses and counterexamples -/

/-- A plain file entry named `nm` of size `sz` bytes, at depth 1 under the
root `/r`, with all timestamps zero and birth time available. -/
def fileEntry (nm : String) (sz : Nat) : Entry where
  path := .utf8 (String.append "/r/" nm)
  pathFileName := some (.utf8 nm)
  entryFileName := .utf8 nm
  ftype := .file
  depth := 1
  metadata := some ⟨sz, 0, 0, some 0⟩

/-- A file entry whose metadata is readable but whose creation time is
unavailable (a platform without birth-time support). -/
def noBirthEntry (nm : String) : Entry :=
  { fileEntry nm 10 with metadata := some ⟨10, 0, 0, none⟩ }

/-- Identity canonicalization: every root resolves to itself. -/
def canonId : FPath → Option FPath := fun p => some p

/-- A walk provider with a single fixed stream: three matching files. -/
def walkOneRoot : FPath → Nat → Nat → Bool → List (Except Nat Entry) :=
  fun _ _ _ _ => [.ok (fileEntry "a" 5), .ok (fileEntry "b" 5),
    .ok (fileEntry "c" 5)]

/-- A walk provider delivering one matching file per root. -/
def walkThreeRoots : FPath → Nat → Nat → Bool → List (Except Nat Entry) :=
  fun p _ _ _ =>
    if p = .utf8 "/r1" then [.ok (fileEntry "a" 5)]
    else if p = .utf8 "/r2" then [.ok (fileEntry "b" 5)]
    else [.ok (fileEntry "c" 5)]

/-- Options with one always-true size condition and a result cap of two. -/
def opts3 : FindOptions :=
  { FindOptions.default with
      options := [.Value (.Filesize (.Over 0))], max_num_results := 2 }

/-! ## Claim theorems -/

/-- C2: condition evaluation short-circuits strictly left to right: for
every entry, evaluating `And(a, b)` evaluates `a` first and, if `a` yields
`Ok(false)`, returns `Ok(false)` without ever evaluating `b` (the leaf
trace is exactly `a`'s), and if `a` yields an error, propagates that error
without evaluating `b`; dually, `Or(a, b)` returns `Ok(true)` without
evaluating `b` when `a` yields `Ok(true)`, and propagates `a`'s error
without evaluating `b`; otherwise both return `b`'s result (with `a`'s
leaves evaluated first, then `b`'s). -/
theorem C2_short_circuit (entry : Entry) (a b : Condition SearchCriteria) :
    (∀ t, a.evalTrace (SearchCriteria.eval · entry) = (.ok false, t) →
      (Condition.And a b).evalTrace (SearchCriteria.eval · entry) =
        (.ok false, t)) ∧
    (∀ er t, a.evalTrace (SearchCriteria.eval · entry) = (.error er, t) →
      (Condition.And a b).evalTrace (SearchCriteria.eval · entry) =
        (.error er, t)) ∧
    (∀ t, a.evalTrace (SearchCriteria.eval · entry) = (.ok true, t) →
      (Condition.And a b).evalTrace (SearchCriteria.eval · entry) =
        ((b.evalTrace (SearchCriteria.eval · entry)).1,
          t ++ (b.evalTrace (SearchCriteria.eval · entry)).2)) ∧
    (∀ t, a.evalTrace (SearchCriteria.eval · entry) = (.ok true, t) →
      (Condition.Or a b).evalTrace (SearchCriteria.eval · entry) =
        (.ok true, t)) ∧
    (∀ er t, a.evalTrace (SearchCriteria.eval · entry) = (.error er, t) →
      (Condition.Or a b).evalTrace (SearchCriteria.eval · entry) =
        (.error er, t)) ∧
    (∀ t, a.evalTrace (SearchCriteria.eval · entry) = (.ok false, t) →
      (Condition.Or a b).evalTrace (SearchCriteria.eval · entry) =
        ((b.evalTrace (SearchCriteria.eval · entry)).1,
          t ++ (b.evalTrace (SearchCriteria.eval · entry)).2)) := by
  refine ⟨?_, ?_, ?_, ?_, ?_, ?_⟩
  · intro t h; simp [Condition.evalTrace, h]
  · intro er t h; simp [Condition.evalTrace, h]
  · intro t h
    rcases hb : b.evalTrace (SearchCriteria.eval · entry) with ⟨r2, t2⟩
    simp [Condition.evalTrace, h, hb]
  · intro t h; simp [Condition.evalTrace, h]
  · intro er t h; simp [Condition.evalTrace, h]
  · intro t h
    rcases hb : b.evalTrace (SearchCriteria.eval · entry) with ⟨r2, t2⟩
    simp [Condition.evalTrace, h, hb]

/-- Witness for C2 at a concrete input: on a 500-byte file, the left
operand `Filesize::Over(1000)` evaluates to `Ok(false)`, and the `And`
short-circuits with a trace containing only that left leaf. -/
theorem C2_short_circuit_witness :
    (Condition.And (Condition.Value (SearchCriteria.Filesize (.Over 1000)))
        (Condition.Value (SearchCriteria.Filesize (.Under 10)))).evalTrace
      (SearchCriteria.eval · (fileEntry "a.txt" 500)) =
      (.ok false, [SearchCriteria.Filesize (.Over 1000)]) :=
  (C2_short_circuit (fileEntry "a.txt" 500) _ _).1
    [SearchCriteria.Filesize (.Over 1000)] rfl

/-- C4: for a non-empty criteria list the all-of builder pushes the
left-folded `And` chain over `Value(criteria[i])`; that chain evaluates to
`Ok(true)` on an entry iff every criterion evaluates to `Ok(true)` on it;
the builder is a no-op on an empty list; and for criteria
`[Filesize::Over(100), Filesize::Under(1000)]` a 500-byte file matches
while 50-byte and 5000-byte files do not, the bounds being strict
(100-byte and 1000-byte files do not match either). -/
theorem C4_all_of (entry : Entry) (c0 : SearchCriteria)
    (rest : List SearchCriteria) (options : List (Condition SearchCriteria)) :
    (add_all_of_condition (c0 :: rest) options =
      options ++ [allOfChain c0 rest]) ∧
    ((allOfChain c0 rest).evaluate (SearchCriteria.eval · entry) = .ok true ↔
      ∀ c ∈ c0 :: rest, SearchCriteria.eval c entry = .ok true) ∧
    (add_all_of_condition [] options = options) ∧
    ((allOfChain (SearchCriteria.Filesize (.Over 100))
        [SearchCriteria.Filesize (.Under 1000)]).evaluate
      (SearchCriteria.eval · (fileEntry "f" 500)) = .ok true) ∧
    ((allOfChain (SearchCriteria.Filesize (.Over 100))
        [SearchCriteria.Filesize (.Under 1000)]).evaluate
      (SearchCriteria.eval · (fileEntry "f" 50)) = .ok false) ∧
    ((allOfChain (SearchCriteria.Filesize (.Over 100))
        [SearchCriteria.Filesize (.Under 1000)]).evaluate
      (SearchCriteria.eval · (fileEntry "f" 5000)) = .ok false) ∧
    ((allOfChain (SearchCriteria.Filesize (.Over 100))
        [SearchCriteria.Filesize (.Under 1000)]).evaluate
      (SearchCriteria.eval · (fileEntry "f" 100)) = .ok false) ∧
    ((allOfChain (SearchCriteria.Filesize (.Over 100))
        [SearchCriteria.Filesize (.Under 1000)]).evaluate
      (SearchCriteria.eval · (fileEntry "f" 1000)) = .ok false) :=
  ⟨rfl, allOfChain_eval _ c0 rest, rfl, rfl, rfl, rfl, rfl, rfl⟩

/-- Witness for C4 at a concrete input: the all-of chain over
`[Filesize::Over(100), Filesize::Under(1000)]` accepts a 500-byte file. -/
theorem C4_all_of_witness :
    (allOfChain (SearchCriteria.Filesize (.Over 100))
        [SearchCriteria.Filesize (.Under 1000)]).evaluate
      (SearchCriteria.eval · (fileEntry "f" 500)) = .ok true :=
  (C4_all_of (fileEntry "f" 500) (SearchCriteria.Filesize (.Over 100))
    [SearchCriteria.Filesize (.Under 1000)] []).2.2.2.1

/-- C5: for a non-empty criteria list the none-of builder pushes a
conjunction of negations `And(Not(Value(c_i)), …)`; that chain evaluates
to `Ok(true)` on an entry iff every criterion evaluates to `Ok(false)` on
it (no criterion matches); it is a no-op on an empty list; and for an
entry named `report.txt` with criteria `[Filename::Contains("draft")]`
the chain evaluates to `Ok(true)`. -/
theorem C5_none_of (entry : Entry) (c0 : SearchCriteria)
    (rest : List SearchCriteria) (options : List (Condition SearchCriteria)) :
    (add_nothing_of_condition (c0 :: rest) options =
      options ++ [noneOfChain c0 rest]) ∧
    ((noneOfChain c0 rest).evaluate (SearchCriteria.eval · entry) = .ok true ↔
      ∀ c ∈ c0 :: rest, SearchCriteria.eval c entry = .ok false) ∧
    (add_nothing_of_condition [] options = options) ∧
    ((noneOfChain (SearchCriteria.Filename (.Contains "draft")) []).evaluate
      (SearchCriteria.eval · (fileEntry "report.txt" 10)) = .ok true) :=
  ⟨rfl, noneOfChain_eval _ c0 rest, rfl, rfl⟩

/-- Witness for C5 at a concrete input: `report.txt` does not contain
`draft`, so the none-of chain accepts it. -/
theorem C5_none_of_witness :
    (noneOfChain (SearchCriteria.Filename (.Contains "draft")) []).evaluate
      (SearchCriteria.eval · (fileEntry "report.txt" 10)) = .ok true :=
  (C5_none_of (fileEntry "report.txt" 10)
    (SearchCriteria.Filename (.Contains "draft")) [] []).2.2.2

/-- C1: in the tuple-returning `find`, an entry whose evaluation fails with
error `er` is recorded, in traversal order, as the pair `(path, er)` in the
error list, is excluded from matches (the match list is the same as if the
entry were absent), and the query continues over the remaining entries;
moreover a `Created` criterion on an entry whose metadata is readable but
whose birth time is unavailable yields exactly `UnsupportedField`, never
`IOError`, and such entries end up only in the error list (their outcome is
the recorded error, not a match). -/
theorem C1_error_channel (opts : FindOptions)
    (pre post : List (Except Nat Entry)) (entry : Entry) (er : EvalError)
    (hig : ignoreSkips opts.ignore entry = false)
    (hhid : (opts.ignore_hidden_files && hiddenSkips entry) = false)
    (hev : evalOptions opts.options entry = .error er) :
    (findFromE opts [pre ++ .ok entry :: post] [] [] =
      ((perRootEMatches opts pre ++ perRootEMatches opts post).take
          opts.max_num_results,
        perRootEErrors opts pre ++
          (entry.path, er) :: perRootEErrors opts post)) ∧
    ((findFromE opts [pre ++ .ok entry :: post] [] []).1 =
      (findFromE opts [pre ++ post] [] []).1) ∧
    (entryOutcomeE opts (.ok entry) = some (.inr (entry.path, er))) ∧
    (∀ (e2 : Entry) (md : Metry) (co : Created), e2.metadata = some md →
      md.created = none →
      SearchCriteria.eval (.Created co) e2 = .error .UnsupportedField ∧
      SearchCriteria.eval (.Created co) e2 ≠ .error .IOError) := by
  have hout : entryOutcomeE opts (.ok entry) = some (.inr (entry.path, er)) :=
    entryOutcomeE_of_error opts entry er hig hhid hev
  have hm : perRootEMatches opts (pre ++ .ok entry :: post) =
      perRootEMatches opts pre ++ perRootEMatches opts post := by
    simp [perRootEMatches, List.filterMap_append, List.filterMap_cons, hout]
  have he : perRootEErrors opts (pre ++ .ok entry :: post) =
      perRootEErrors opts pre ++ (entry.path, er) :: perRootEErrors opts post := by
    simp [perRootEErrors, List.filterMap_append, List.filterMap_cons, hout]
  have hm2 : perRootEMatches opts (pre ++ post) =
      perRootEMatches opts pre ++ perRootEMatches opts post := by
    simp [perRootEMatches, List.filterMap_append]
  refine ⟨?_, ?_, hout, ?_⟩
  · rw [findFromE_single, hm, he]
  · rw [findFromE_single, findFromE_single, hm, hm2]
  · intro e2 md co h1 h2
    constructor
    · simp [SearchCriteria.eval, creation_time_matches, h1, h2]
    · simp [SearchCriteria.eval, creation_time_matches, h1, h2]

/-- Witness for C1 at a concrete input: one root containing a single entry
whose birth time is unavailable, queried with a `Created::At(0)` condition:
`find` returns no match and exactly the pair
`(path, EvalError::UnsupportedField)`. -/
theorem C1_error_channel_witness :
    findFromE
      { FindOptions.default with
          options := [.Value (.Created (.At 0))] }
      [[.ok (noBirthEntry "x")]] [] [] =
      ([], [((noBirthEntry "x").path, EvalError.UnsupportedField)]) :=
  (C1_error_channel
    { FindOptions.default with options := [.Value (.Created (.At 0))] }
    [] [] (noBirthEntry "x") EvalError.UnsupportedField rfl rfl rfl).1

/-- C3 counterexample: with `max_num_results = 2` and three matching files
`a, b, c` discovered in that order within a single root, `find` does return
exactly `[a, b]`, but the entry `c` after `b` IS evaluated (it appears in
the instrumented evaluation trace), contradicting the claim's "no entry
after b is evaluated": truncation happens only after the whole root is
processed. -/
theorem C3_counterexample :
    findT canonId walkOneRoot [.utf8 "/r"] opts3 =
      ([(fileEntry "a" 5).path, (fileEntry "b" 5).path],
       [(fileEntry "a" 5).path, (fileEntry "b" 5).path,
        (fileEntry "c" 5).path]) ∧
    (fileEntry "c" 5).path ∈ (findT canonId walkOneRoot [.utf8 "/r"] opts3).2 ∧
    (fileEntry "c" 5).path ∉
      (findT canonId walkOneRoot [.utf8 "/r"] opts3).1 := by
  refine ⟨rfl, ?_, ?_⟩ <;> decide

/-- C3 amended: once a root's matches bring the cumulative match count to
`max_num_results`, the result is truncated to exactly the cap and no
further roots are processed (their entries are never evaluated); entries
after the cap inside the current root's stream are still evaluated and
their matches discarded by the truncation.  With `max_num_results = 2` and
matching files `a, b, c` one per root in that order, `find` returns exactly
`[a, b]` and `c` is never evaluated. -/
theorem C3_amended (opts : FindOptions) (stream : List (Except Nat Entry))
    (rest : List (List (Except Nat Entry)))
    (h : opts.max_num_results ≤ (perRootMatches opts stream).length) :
    (findFromT opts (stream :: rest) [] [] =
      ((perRootMatches opts stream).take opts.max_num_results,
        perRootEvaluated opts stream)) ∧
    ((findFromT opts (stream :: rest) [] []).1.length =
      opts.max_num_results) ∧
    (findT canonId walkThreeRoots [.utf8 "/r1", .utf8 "/r2", .utf8 "/r3"]
        opts3 =
      ([(fileEntry "a" 5).path, (fileEntry "b" 5).path],
       [(fileEntry "a" 5).path, (fileEntry "b" 5).path])) := by
  have h0 : findFromT opts (stream :: rest) [] [] =
      ((perRootMatches opts stream).take opts.max_num_results,
        perRootEvaluated opts stream) := by
    have := findFromT_break opts stream rest [] [] (by simpa using h)
    simpa using this
  refine ⟨h0, ?_, rfl⟩
  rw [h0]
  simp only [List.length_take]
  omega

/-- Witness for C3's amended theorem at a concrete input: a single root
whose three matches exceed the cap of two. -/
theorem C3_amended_witness :
    findFromT opts3 [[.ok (fileEntry "a" 5), .ok (fileEntry "b" 5),
        .ok (fileEntry "c" 5)]] [] [] =
      ([(fileEntry "a" 5).path, (fileEntry "b" 5).path],
       [(fileEntry "a" 5).path, (fileEntry "b" 5).path,
        (fileEntry "c" 5).path]) :=
  ((C3_amended opts3 [.ok (fileEntry "a" 5), .ok (fileEntry "b" 5),
      .ok (fileEntry "c" 5)] [] (by decide)).1).trans rfl

/-- C6: whenever the walk provider honours the depth bounds it is invoked
with (every entry it yields has `min_depth ≤ depth ≤ max_depth`, the
interface contract of §6), `min_depth_from_start > max_search_depth` makes
the result of `find` empty, for any roots and any filesystem contents. -/
theorem C6_min_over_max (canon : FPath → Option FPath)
    (walk : FPath → Nat → Nat → Bool → List (Except Nat Entry))
    (roots : List FPath) (opts : FindOptions)
    (hwalk : ∀ p mn mx fl e, Except.ok e ∈ walk p mn mx fl →
      mn ≤ e.depth ∧ e.depth ≤ mx)
    (h : opts.max_search_depth < opts.min_depth_from_start) :
    find canon walk roots opts = [] := by
  rw [find, findFrom_eq_take opts _ [] (Nat.zero_le _), List.nil_append]
  have hnil : ∀ s ∈ (roots.filterMap canon).map
      (fun p => walk p opts.min_depth_from_start opts.max_search_depth
        opts.follow_symlinks), perRootMatches opts s = [] := by
    intro s hs
    rcases List.mem_map.mp hs with ⟨p, _, rfl⟩
    rw [perRootMatches, List.filterMap_eq_nil_iff]
    intro it hit
    rcases it with k | e
    · rfl
    · have := hwalk p opts.min_depth_from_start opts.max_search_depth
        opts.follow_symlinks e hit
      omega
  have : ((roots.filterMap canon).map
      (fun p => walk p opts.min_depth_from_start opts.max_search_depth
        opts.follow_symlinks)).map (perRootMatches opts) =
      ((roots.filterMap canon).map
      (fun p => walk p opts.min_depth_from_start opts.max_search_depth
        opts.follow_symlinks)).map (fun _ => ([] : List FPath)) :=
    List.map_congr_left (fun s hs => hnil s hs)
  rw [this]
  rw [List.flatten_eq_nil_iff.mpr (by
    intro l hl
    rcases List.mem_map.mp hl with ⟨_, _, rfl⟩
    rfl)]
  exact List.take_nil

/-- Witness for C6 at a concrete input: an empty-stream provider trivially
honours the bounds; with `min_depth_from_start = 5 > 3 = max_search_depth`
the result is empty. -/
theorem C6_min_over_max_witness :
    find canonId (fun _ _ _ _ => []) [.utf8 "/r"]
      { FindOptions.default with
          max_search_depth := 3, min_depth_from_start := 5 } = [] :=
  C6_min_over_max canonId (fun _ _ _ _ => []) [.utf8 "/r"]
    { FindOptions.default with
        max_search_depth := 3, min_depth_from_start := 5 }
    (by intro p mn mx fl e he; simp at he) (by decide)

/-- C7: with `ignore_hidden_files` set (and the entry not already removed
by the `ignore` filter), an entry is skipped before condition evaluation
iff its leaf name is convertible to text and begins with `'.'`; an entry
whose leaf name is not convertible is kept and proceeds to evaluation
(treated as visible, not as an error): any recorded evaluation error comes
from the condition tree, never from the filtering stage.  The second
component of `processEntryT` records whether the condition tree was
reached, so `(none, false)` is "skipped before evaluation". -/
theorem C7_hidden_filter (opts : FindOptions) (entry : Entry)
    (hopt : opts.ignore_hidden_files = true)
    (hig : ignoreSkips opts.ignore entry = false) :
    ((∃ s, entry.entryFileName = .utf8 s ∧ startsWithDot s = true) →
      processEntryT opts (.ok entry) = (none, false)) ∧
    ((∀ s, entry.entryFileName = .utf8 s → startsWithDot s = false) →
      (processEntryT opts (.ok entry)).2 = true) ∧
    ((∀ s, entry.entryFileName ≠ .utf8 s) →
      (processEntryT opts (.ok entry)).2 = true) ∧
    (∀ pe, entryOutcomeE opts (.ok entry) = some (.inr pe) →
      evalOptions opts.options entry = .error pe.2) := by
  refine ⟨?_, ?_, ?_, ?_⟩
  · rintro ⟨s, hs, hdot⟩
    have hh : hiddenSkips entry = true := by
      simp [hiddenSkips, hs, OsStr.toStr?, hdot]
    simp [processEntryT, hig, hopt, hh]
  · intro hnone
    have hh : hiddenSkips entry = false := by
      rcases hf : entry.entryFileName with s | k
      · simp [hiddenSkips, OsStr.toStr?, hf, hnone s hf]
      · simp [hiddenSkips, OsStr.toStr?, hf]
    by_cases hall : opts.options.all
        (fun c => unwrapOr (c.evaluate (SearchCriteria.eval · entry)) false)
    · simp [processEntryT, hig, hopt, hh, hall]
    · simp [processEntryT, hig, hopt, hh, hall]
  · intro hinv
    have hh : hiddenSkips entry = false := by
      rcases hf : entry.entryFileName with s | k
      · exact absurd hf (hinv s)
      · simp [hiddenSkips, OsStr.toStr?, hf]
    by_cases hall : opts.options.all
        (fun c => unwrapOr (c.evaluate (SearchCriteria.eval · entry)) false)
    · simp [processEntryT, hig, hopt, hh, hall]
    · simp [processEntryT, hig, hopt, hh, hall]
  · intro pe hpe
    simp only [entryOutcomeE, hig] at hpe
    by_cases hh : opts.ignore_hidden_files && hiddenSkips entry
    · simp [hh] at hpe
    · rw [Bool.not_eq_true] at hh
      simp only [hh] at hpe
      rcases hev : evalOptions opts.options entry with er | b
      · simp only [hev] at hpe
        simp at hpe
        subst hpe
        rfl
      · rcases b <;> simp [hev] at hpe

/-- Witness for C7 at a concrete input: with hidden-file filtering on, the
entry named `.hidden` is dropped before any condition evaluation. -/
theorem C7_hidden_filter_witness :
    processEntryT { FindOptions.default with ignore_hidden_files := true }
      (.ok (fileEntry ".hidden" 1)) = (none, false) :=
  (C7_hidden_filter
    { FindOptions.default with ignore_hidden_files := true }
    (fileEntry ".hidden" 1) rfl rfl).1 ⟨".hidden", rfl, rfl⟩

/-- C8: for every fixed per-root stream assignment, the match list of
`find` is the `max_num_results`-prefix of the concatenation, in root
order, of the per-root match lists, each in stream order — root order
first, within-root traversal order second; and two runs with the same
roots, options and identical canonicalization/walk-provider behaviour
return identical match lists. -/
theorem C8_ordering (canon canon' : FPath → Option FPath)
    (walk walk' : FPath → Nat → Nat → Bool → List (Except Nat Entry))
    (roots : List FPath) (opts : FindOptions) :
    (find canon walk roots opts =
      (((roots.filterMap canon).map
        (fun p => perRootMatches opts
          (walk p opts.min_depth_from_start opts.max_search_depth
            opts.follow_symlinks))).flatten).take opts.max_num_results) ∧
    (canon = canon' → walk = walk' →
      find canon walk roots opts = find canon' walk' roots opts) := by
  constructor
  · rw [find, findFrom_eq_take opts _ [] (Nat.zero_le _), List.nil_append,
      List.map_map]
    rfl
  · rintro rfl rfl; rfl

/-- Witness for C8 at a concrete input: the runs coincide. -/
theorem C8_ordering_witness :
    find canonId walkOneRoot [.utf8 "/r"] opts3 =
      find canonId walkOneRoot [.utf8 "/r"] opts3 :=
  (C8_ordering canonId canonId walkOneRoot walkOneRoot [.utf8 "/r"]
    opts3).2 rfl rfl

/-- C9: `find` canonicalizes every root before traversal; a root that
cannot be canonicalized is silently dropped (running on `roots` equals
running with the failed roots removed and identity canonicalization, and
if no root canonicalizes the result is empty — there is no caller-visible
error channel in the return type); every returned path was yielded by the
walk of some canonicalized root; and `FilePath` criteria depend only on the
entry's path, i.e. the path string derived from the canonical root. -/
theorem C9_canonicalize (canon : FPath → Option FPath)
    (walk : FPath → Nat → Nat → Bool → List (Except Nat Entry))
    (roots : List FPath) (opts : FindOptions) :
    (find canon walk roots opts =
      find some walk (roots.filterMap canon) opts) ∧
    ((∀ r ∈ roots, canon r = none) → find canon walk roots opts = []) ∧
    (∀ q ∈ find canon walk roots opts, ∃ r ∈ roots, ∃ cr, canon r = some cr ∧
      ∃ e : Entry, Except.ok e ∈ walk cr opts.min_depth_from_start
        opts.max_search_depth opts.follow_symlinks ∧ e.path = q) ∧
    (∀ (e1 e2 : Entry) (fo : FilePathCrit), e1.path = e2.path →
      filepath_matches e1 fo = filepath_matches e2 fo) := by
  refine ⟨?_, ?_, ?_, ?_⟩
  · rw [find, find, List.filterMap_some]
  · intro hnone
    rw [find, List.filterMap_eq_nil_iff.mpr hnone]
    rfl
  · intro q hq
    rw [find, findFrom_eq_take opts _ [] (Nat.zero_le _),
      List.nil_append] at hq
    have hq2 := List.mem_of_mem_take hq
    rcases List.mem_flatten.mp hq2 with ⟨l, hl, hql⟩
    rcases List.mem_map.mp hl with ⟨s, hs, rfl⟩
    rcases List.mem_map.mp hs with ⟨p, hp, rfl⟩
    rcases List.mem_filterMap.mp hp with ⟨r, hr, hcr⟩
    rcases List.mem_filterMap.mp hql with ⟨it, hit, hsome⟩
    rcases processEntry_some opts it q hsome with ⟨e, rfl, hpath⟩
    exact ⟨r, hr, p, hcr, e, hit, hpath⟩
  · intro e1 e2 fo h
    simp [filepath_matches, h]

/-- Witness for C9 at a concrete input: with a canonicalization that fails
on every root, `find` returns the empty list, with no error reported. -/
theorem C9_canonicalize_witness :
    find (fun _ => none) walkOneRoot [.utf8 "/missing"]
      FindOptions.default = [] :=
  (C9_canonicalize (fun _ => none) walkOneRoot [.utf8 "/missing"]
    FindOptions.default).2.1 (by intro r _; rfl)

/-- C10: when `FindOptions.options` is empty — as in the `Default`
configuration — the top-level `options.iter().all(..)` check is vacuously
true, so every entry that survives the walk-error skip and the
`ignore`/hidden-file filters is returned (up to the result cap). -/
theorem C10_empty_options (opts : FindOptions) (hopt : opts.options = [])
    (canon : FPath → Option FPath)
    (walk : FPath → Nat → Nat → Bool → List (Except Nat Entry))
    (roots : List FPath) (stream : List (Except Nat Entry)) :
    (FindOptions.default.options = []) ∧
    (perRootMatches opts stream = stream.filterMap (fun it =>
      match it with
      | .error _ => none
      | .ok e =>
        if ignoreSkips opts.ignore e then none
        else if opts.ignore_hidden_files && hiddenSkips e then none
        else some e.path)) ∧
    (find canon walk roots opts =
      (((roots.filterMap canon).map (fun p =>
        (walk p opts.min_depth_from_start opts.max_search_depth
          opts.follow_symlinks).filterMap (fun it =>
            match it with
            | .error _ => none
            | .ok e =>
              if ignoreSkips opts.ignore e then none
              else if opts.ignore_hidden_files && hiddenSkips e then none
              else some e.path))).flatten).take opts.max_num_results) := by
  have hfun : ∀ s : List (Except Nat Entry),
      perRootMatches opts s = s.filterMap (fun it =>
        match it with
        | .error _ => none
        | .ok e =>
          if ignoreSkips opts.ignore e then none
          else if opts.ignore_hidden_files && hiddenSkips e then none
          else some e.path) := by
    intro s
    rw [perRootMatches]
    congr 1
    funext it
    rcases it with k | e
    · rfl
    · simp only [processEntry, processEntryT, hopt, List.all_nil, if_true]
      by_cases h1 : ignoreSkips opts.ignore e
      · simp [h1]
      · by_cases h2 : opts.ignore_hidden_files && hiddenSkips e
        · simp [h1, h2]
        · simp [h1, h2]
  refine ⟨rfl, hfun stream, ?_⟩
  rw [find, findFrom_eq_take opts _ [] (Nat.zero_le _), List.nil_append,
    List.map_map]
  have hmap : List.map (perRootMatches opts ∘ fun p =>
      walk p opts.min_depth_from_start opts.max_search_depth
        opts.follow_symlinks) (roots.filterMap canon) =
      List.map (fun p =>
        (walk p opts.min_depth_from_start opts.max_search_depth
          opts.follow_symlinks).filterMap (fun it =>
            match it with
            | .error _ => none
            | .ok e =>
              if ignoreSkips opts.ignore e then none
              else if opts.ignore_hidden_files && hiddenSkips e then none
              else some e.path)) (roots.filterMap canon) :=
    List.map_congr_left (fun p _ => hfun _)
  rw [hmap]

/-- Witness for C10 at a concrete input: under the default options, a
stream of three plain files yields all three paths. -/
theorem C10_empty_options_witness :
    perRootMatches FindOptions.default
        [.ok (fileEntry "a" 5), .ok (fileEntry "b" 5),
          .ok (fileEntry "c" 5)] =
      [(fileEntry "a" 5).path, (fileEntry "b" 5).path,
        (fileEntry "c" 5).path] :=
  ((C10_empty_options FindOptions.default rfl canonId walkOneRoot []
    [.ok (fileEntry "a" 5), .ok (fileEntry "b" 5),
      .ok (fileEntry "c" 5)]).2.1).trans rfl

end Fily
